import Mathlib

/-!
Verification development for the AI interview-coach session orchestrator.

The TypeScript source consists of a React component (`src/App.tsx`) owning the
interview state machine and a service module (`src/unnamed/part_000`) with the
analysis calls.  We embed the state, the event handlers and the pure parts of
the service calls as Lean definitions and prove the specified properties.

Numbers manipulated by the program (timestamps in milliseconds, durations in
seconds, scores) are modelled as rationals; array indices as naturals.
JavaScript truthiness on optional strings and numbers is modelled explicitly:
`undefined` and the empty string, respectively `undefined` and `0`, are falsy.
-/

namespace Coach

/-- The `InterviewState` enum from `src/types.ts`. -/
inductive InterviewState where
  | NOT_STARTED
  | GETTING_JOB_DESC
  | GENERATING_QUESTIONS
  | INTERVIEWING
  | AWAITING_FEEDBACK
  | REVIEWING
deriving DecidableEq, Repr

/-- The `relevance` component of `Feedback` (`src/types.ts`). -/
structure RelevanceFb where
  score : ℚ
  feedback : String
deriving DecidableEq, Repr

/-- The `starMethod` component of `Feedback` (`src/types.ts`). -/
structure StarMethodFb where
  score : ℚ
  feedback : String
  situation : Bool
  task : Bool
  action : Bool
  result : Bool
deriving DecidableEq, Repr

/-- The `clarityConfidence` component of `Feedback` (`src/types.ts`). -/
structure ClarityFb where
  score : ℚ
  feedback : String
  powerWords : List String
  passiveWords : List String
deriving DecidableEq, Repr

/-- The `pace` component of `Feedback` (`src/types.ts`). -/
structure PaceFb where
  wpm : ℚ
  feedback : String
deriving DecidableEq, Repr

/-- The `fillerWords` component of `Feedback` (`src/types.ts`). -/
structure FillerFb where
  count : ℚ
  words : List String
  feedback : String
deriving DecidableEq, Repr

/-- The `Feedback` record from `src/types.ts`. -/
structure Feedback where
  relevance : RelevanceFb
  starMethod : StarMethodFb
  clarityConfidence : ClarityFb
  pace : PaceFb
  fillerWords : FillerFb
  overallFeedback : String
deriving DecidableEq, Repr

/-- The `Question` record from `src/types.ts`.  The optional fields are
`answer`, `feedback` and `audioDuration` (elapsed seconds of the capture). -/
structure Question where
  id : Nat
  text : String
  answer : Option String := none
  feedback : Option Feedback := none
  audioDuration : Option ℚ := none
deriving DecidableEq, Repr

/-- JavaScript truthiness of `question.answer`: `undefined` and `""` are
falsy. -/
def answerTruthy (q : Question) : Bool :=
  match q.answer with
  | none => false
  | some a => a != ""

/-- JavaScript truthiness of `question.audioDuration`: `undefined` and `0` are
falsy. -/
def durationTruthy (q : Question) : Bool :=
  match q.audioDuration with
  | none => false
  | some d => d != 0

/-- JavaScript `String.prototype.split(' ')` on the character list of a
string: splits at every single space, keeping empty pieces, and yields one
(empty) piece for the empty string. -/
def splitOnSpace : List Char → List (List Char)
  | [] => [[]]
  | c :: rest =>
      if c = ' ' then [] :: splitOnSpace rest
      else
        match splitOnSpace rest with
        | w :: ws => (c :: w) :: ws
        | [] => [[c]]

/-- `answer.split(' ').length` from `getAnswerFeedback`
(`src/unnamed/part_000`). -/
def wordCount (s : String) : Nat :=
  (splitOnSpace s.data).length

/-- JavaScript `Math.round`: round half towards positive infinity. -/
def jsRound (x : ℚ) : ℤ :=
  ⌊x + 1/2⌋

/-- The `wordsPerMinute` value computed inside `getAnswerFeedback`
(`src/unnamed/part_000`): the guarded ternary
`question.audioDuration && question.answer ? Math.round(...) : 150`. -/
def wordsPerMinute (q : Question) : ℤ :=
  if durationTruthy q && answerTruthy q then
    jsRound ((wordCount (q.answer.getD "") : ℚ) / (q.audioDuration.getD 0 / 60))
  else 150

/-- The pure skeleton of `getAnswerFeedback` (`src/unnamed/part_000`): the
initial guard `if (!question.answer) throw new Error("Answer is missing")`
followed by the words-per-minute computation whose result is interpolated
into the analysis request.  The external call itself is outside the model;
the value of interest is the pace passed to it. -/
def getAnswerFeedbackWpm (q : Question) : Except String ℤ :=
  if answerTruthy q then .ok (wordsPerMinute q) else .error "Answer is missing"

/-- Modelled from the spec: the words-per-minute rule of section 4.2, which
says the rate is `round(wordCount(answer) / (audioDuration / 60))` and that a
zero or absent `audioDuration` or an empty answer must yield the neutral
default 150 instead.  Used only for comparison with the source-derived
`wordsPerMinute`. -/
def specWpm (answer : String) (audioDuration : Option ℚ) : ℤ :=
  if answer = "" ∨ audioDuration = none ∨ audioDuration = some 0 then 150
  else jsRound ((wordCount answer : ℚ) / (audioDuration.getD 0 / 60))

/-- The fixed fallback list `PRESET_QUESTIONS` from `src/App.tsx`. -/
def PRESET_QUESTIONS : List String :=
  ["Tell me about yourself.",
   "What are your biggest strengths?",
   "What are your biggest weaknesses?",
   "Tell me about a time you faced a challenge at work and how you handled it.",
   "Where do you see yourself in five years?"]

/-- The orchestrator state: the React state hooks of the `App` component
(`src/App.tsx`) gathered into one record.  `recordingStartTime` is the
`Date.now()` timestamp in milliseconds captured by `startListening`. -/
structure Session where
  phase : InterviewState
  jobDescription : String
  questions : List Question
  currentIndex : Nat
  isListening : Bool
  interimTranscript : String
  finalTranscript : String
  recordingStartTime : Option ℚ
deriving DecidableEq, Repr

/-- The initial hook values of the `App` component. -/
def init : Session :=
  { phase := .NOT_STARTED, jobDescription := "", questions := [],
    currentIndex := 0, isListening := false, interimTranscript := "",
    finalTranscript := "", recordingStartTime := none }

/-- `generatedQs.map((q, i) => ({ id: i, text: q }))` from `startInterview`,
with the running index made explicit. -/
def mkQuestionsFrom (i : Nat) : List String → List Question
  | [] => []
  | t :: rest => { id := i, text := t } :: mkQuestionsFrom (i + 1) rest

/-- Question records built from a list of prompt strings, ids starting at 0. -/
def mkQuestions (l : List String) : List Question :=
  mkQuestionsFrom 0 l

/-- `resetInterview` from `src/App.tsx`: resets the six hooks it touches and
leaves the rest of the component state alone. -/
def resetInterview (s : Session) : Session :=
  { s with phase := .NOT_STARTED, jobDescription := "", questions := [],
           currentIndex := 0, finalTranscript := "", interimTranscript := "" }

/-- The state left behind by a completed `startInterview` call
(`src/App.tsx`): question texts come from the generation call when a job
description is present (falling back to `PRESET_QUESTIONS` when that call
fails) and from `PRESET_QUESTIONS` otherwise; then the index is reset and the
phase becomes `INTERVIEWING`.  `gen` is the outcome of the external
`generateQuestionsFromJD` call. -/
def startInterviewResult (gen : Except Unit (List String)) (s : Session) : Session :=
  let texts :=
    if s.jobDescription ≠ "" then
      match gen with
      | .ok l => l
      | .error _ => PRESET_QUESTIONS
    else PRESET_QUESTIONS
  { s with questions := mkQuestions texts, currentIndex := 0,
           phase := .INTERVIEWING }

/-- `startListening` from `src/App.tsx`: clear both transcript buffers,
record the start timestamp, begin capture. -/
def startListening (now : ℚ) (s : Session) : Session :=
  { s with finalTranscript := "", interimTranscript := "",
           recordingStartTime := some now, isListening := true }

/-- Write `answer`/`audioDuration` into the question at a given position:
`prev.map((q, i) => i === currentQuestionIndex ? { ...q, answer, audioDuration } : q)`. -/
def setAnswerAt : List Question → Nat → String → ℚ → List Question
  | [], _, _, _ => []
  | q :: rest, 0, ans, dur =>
      { q with answer := some ans, audioDuration := some dur } :: rest
  | q :: rest, i + 1, ans, dur => q :: setAnswerAt rest i ans dur

/-- `stopListening` from `src/App.tsx`: stop capture, compute the elapsed
seconds via the truthiness check `recordingStartTime ? (endTime -
recordingStartTime) / 1000 : 0` (an absent or zero start timestamp is falsy
and yields duration 0), attach answer and duration to the current question,
then either advance the index (`currentQuestionIndex < questions.length - 1`,
JavaScript number arithmetic, rendered over integers as
`currentIndex + 1 < length`) or move to `AWAITING_FEEDBACK`. -/
def stopListening (now : ℚ) (s : Session) : Session :=
  let duration : ℚ :=
    match s.recordingStartTime with
    | some t0 => if t0 ≠ 0 then (now - t0) / 1000 else 0
    | none => 0
  let qs := setAnswerAt s.questions s.currentIndex s.finalTranscript duration
  if s.currentIndex + 1 < s.questions.length then
    { s with isListening := false, questions := qs,
             currentIndex := s.currentIndex + 1 }
  else
    { s with isListening := false, questions := qs,
             phase := .AWAITING_FEEDBACK }

/-- Concatenation of the transcripts of the final results of one
`onresult` event, in delivery order (the `final` accumulator of the loop in
`recognition.onresult`). -/
def finalsOf (rs : List (Bool × String)) : String :=
  rs.foldl (fun acc r => if r.1 then acc ++ r.2 else acc) ""

/-- Concatenation of the transcripts of the non-final results of one
`onresult` event (the `interim` accumulator of the same loop). -/
def interimOf (rs : List (Bool × String)) : String :=
  rs.foldl (fun acc r => if r.1 then acc else acc ++ r.2) ""

/-- The `recognition.onresult` handler (`src/App.tsx`): the interim scratch
buffer is replaced, and when the event carried final text it is appended to
the final buffer followed by one `". "` delimiter. -/
def onResult (rs : List (Bool × String)) (s : Session) : Session :=
  { s with interimTranscript := interimOf rs,
           finalTranscript :=
             if finalsOf rs ≠ "" then s.finalTranscript ++ finalsOf rs ++ ". "
             else s.finalTranscript }

/-- One iteration of the `fetchFeedback` loop, restricted to a single
question: skip it unless its answer is truthy, otherwise attach the analysis
result when the call succeeds and leave the record unchanged when it fails.
`analyze` is the outcome function of the external `getAnswerFeedback` call. -/
def updateOne (analyze : Question → Option Feedback) (q : Question) : Question :=
  if answerTruthy q then
    match analyze q with
    | some f => { q with feedback := some f }
    | none => q
  else q

/-- The questions on which the `fetchFeedback` loop invokes
`getAnswerFeedback`, in invocation order. -/
def pipelineCalls : List Question → List Question
  | [] => []
  | q :: rest =>
      if answerTruthy q then q :: pipelineCalls rest else pipelineCalls rest

/-- A single state write performed by the `fetchFeedback` continuation:
either `setQuestions([...updatedQuestions])` or
`setInterviewState(InterviewState.REVIEWING)`. -/
inductive PipeWrite where
  | setQs (qs : List Question)
  | setPhase (p : InterviewState)

/-- Apply one pipeline write to the component state. -/
def applyWrite (s : Session) : PipeWrite → Session
  | .setQs qs => { s with questions := qs }
  | .setPhase p => { s with phase := p }

/-- The ordered list of state writes issued by the `fetchFeedback` loop
(`src/App.tsx`), mirroring its incremental `setQuestions` snapshots: `done`
is the already-processed prefix of the captured `updatedQuestions` array,
the second argument the still-pending suffix.  After the loop an
unconditional `setPhase REVIEWING` is issued. -/
def pipeWrites (analyze : Question → Option Feedback) :
    List Question → List Question → List PipeWrite
  | _, [] => [.setPhase .REVIEWING]
  | done, q :: rest =>
      if answerTruthy q then
        match analyze q with
        | some f =>
            .setQs (done ++ ({ q with feedback := some f } :: rest)) ::
              pipeWrites analyze (done ++ [{ q with feedback := some f }]) rest
        | none => pipeWrites analyze (done ++ [q]) rest
      else pipeWrites analyze (done ++ [q]) rest

/-- The effect of running the whole `fetchFeedback` continuation from a
state: fold its writes over the state, starting from the captured
question array. -/
def fetchFeedbackRun (analyze : Question → Option Feedback) (s : Session) : Session :=
  (pipeWrites analyze [] s.questions).foldl applyWrite s

/-- External events driving the orchestrator.  Guards reflect which handlers
the rendered view exposes in each phase: the job-description entry only in
`GETTING_JOB_DESC`, `startInterview` from the two start screens (with a
non-empty description required by the disabled-button condition on the
second), the capture toggle only while `INTERVIEWING`, recognition results
only while capture is live, and the feedback continuation completing from
`AWAITING_FEEDBACK`. -/
inductive Event where
  | beginWithJD
  | setJD (t : String)
  | startInterviewEv (gen : Except Unit (List String))
  | startListen (now : ℚ)
  | stopListen (now : ℚ)
  | recog (rs : List (Bool × String))
  | finishFeedback (analyze : Question → Option Feedback)
  | reset

/-- One step of the orchestrator. -/
def step (s : Session) : Event → Session
  | .beginWithJD =>
      if s.phase = .NOT_STARTED then { s with phase := .GETTING_JOB_DESC } else s
  | .setJD t =>
      if s.phase = .GETTING_JOB_DESC then { s with jobDescription := t } else s
  | .startInterviewEv gen =>
      if s.phase = .NOT_STARTED ∨ (s.phase = .GETTING_JOB_DESC ∧ s.jobDescription ≠ "")
      then startInterviewResult gen s else s
  | .startListen now =>
      if s.phase = .INTERVIEWING ∧ s.isListening = false then startListening now s else s
  | .stopListen now =>
      if s.phase = .INTERVIEWING ∧ s.isListening = true then stopListening now s else s
  | .recog rs =>
      if s.isListening = true then onResult rs s else s
  | .finishFeedback analyze =>
      if s.phase = .AWAITING_FEEDBACK then fetchFeedbackRun analyze s else s
  | .reset => resetInterview s

/-- A component state reachable from the initial hook values by some event
sequence. -/
def Reachable (s : Session) : Prop :=
  ∃ es : List Event, s = es.foldl step init

/-- The final-transcript buffer accumulated from a sequence of recognition
events starting from a given buffer content: per event, the concatenated
final fragments followed by one delimiter, or nothing when the event carried
no final text.  Only the final fragments of each event are consulted. -/
def accumFinalFrom (acc : String) : List (List (Bool × String)) → String
  | [] => acc
  | rs :: rest =>
      accumFinalFrom
        (if finalsOf rs ≠ "" then acc ++ finalsOf rs ++ ". " else acc) rest

/-- The final-fragment buffer accumulated from an empty buffer. -/
def accumFinal (batches : List (List (Bool × String))) : String :=
  accumFinalFrom "" batches

/-- The interim scratch buffer after a sequence of recognition events: the
interim text of the last event, or the starting content if there was none. -/
def lastInterim (start : String) : List (List (Bool × String)) → String
  | [] => start
  | rs :: rest => lastInterim (interimOf rs) rest

/-- State invariant maintained by every orchestrator step: the start screens
carry an empty question list and index zero; while interviewing the index is
within bounds unless the generated list was empty; question ids are the
positions 0, 1, 2, …; `answer` and `audioDuration` are attached atomically;
and no feedback exists before the `REVIEWING` phase. -/
def Inv (s : Session) : Prop :=
  ((s.phase = .NOT_STARTED ∨ s.phase = .GETTING_JOB_DESC) →
    s.currentIndex = 0 ∧ s.questions = []) ∧
  (s.phase = .INTERVIEWING →
    s.currentIndex < s.questions.length ∨
      (s.questions = [] ∧ s.currentIndex = 0)) ∧
  s.questions.map Question.id = List.range s.questions.length ∧
  (∀ q ∈ s.questions, q.answer.isSome ↔ q.audioDuration.isSome) ∧
  (s.phase ≠ .REVIEWING → ∀ q ∈ s.questions, q.feedback = none)

/-- A sample structured feedback value, used to instantiate the analysis
outcome in concrete scenarios. -/
def fb0 : Feedback :=
  { relevance := { score := 3, feedback := "ok" },
    starMethod := { score := 3, feedback := "ok",
                    situation := true, task := true, action := true,
                    result := true },
    clarityConfidence := { score := 3, feedback := "ok",
                           powerWords := [], passiveWords := [] },
    pace := { wpm := 150, feedback := "ok" },
    fillerWords := { count := 0, words := [], feedback := "ok" },
    overallFeedback := "ok" }

/-- A concrete run: enter the job-description screen, type a description,
start the interview with a generation call that returns one question, then
record and finish one spoken answer.  Leaves the session awaiting
feedback. -/
def wTrace : List Event :=
  [.beginWithJD, .setJD "jd", .startInterviewEv (.ok ["q0"]),
   .startListen 1000, .recog [(true, "hi")], .stopListen 3000]

/-- The session state at the end of `wTrace`. -/
def wAwait : Session := wTrace.foldl step init

/-- A concrete session that just entered `INTERVIEWING` with the preset
questions (no job description given). -/
def wInterviewing : Session :=
  [Event.startInterviewEv (.error ())].foldl step init

/-- A concrete `INTERVIEWING` session with live capture. -/
def wListening : Session :=
  [Event.startInterviewEv (.error ()), Event.startListen 0].foldl step init

/-- A run in which the generation call succeeded but returned three
questions instead of five. -/
def badGenState : Session :=
  [Event.beginWithJD, Event.setJD "jd",
   Event.startInterviewEv (.ok ["a", "b", "c"])].foldl step init

/-- A run in which the generation call succeeded but returned an empty
question list. -/
def emptyGenState : Session :=
  [Event.beginWithJD, Event.setJD "jd",
   Event.startInterviewEv (.ok [])].foldl step init

/-- The state produced by resetting mid-pipeline and then letting the
already-running feedback continuation finish: the reset state with all
pipeline writes for the captured question list applied on top. -/
def pipelineAfterReset : Session :=
  (pipeWrites (fun _ => some fb0) [] wAwait.questions).foldl applyWrite
    (resetInterview wAwait)

theorem mkQuestionsFrom_length (i : Nat) (l : List String) :
    (mkQuestionsFrom i l).length = l.length := by
  induction l generalizing i with
  | nil => rfl
  | cons t rest ih => simp [mkQuestionsFrom, ih]

theorem mkQuestionsFrom_map_id (i : Nat) (l : List String) :
    (mkQuestionsFrom i l).map Question.id = (List.range l.length).map (· + i) := by
  induction l generalizing i with
  | nil => rfl
  | cons t rest ih =>
      simp [mkQuestionsFrom, ih, List.range_succ_eq_map, List.map_map,
            Function.comp, Nat.succ_eq_add_one, Nat.add_assoc, Nat.add_comm,
            Nat.add_left_comm]

theorem mkQuestions_map_id (l : List String) :
    (mkQuestions l).map Question.id = List.range l.length := by
  simpa using mkQuestionsFrom_map_id 0 l

theorem mkQuestions_length (l : List String) :
    (mkQuestions l).length = l.length :=
  mkQuestionsFrom_length 0 l

theorem mkQuestionsFrom_mem (i : Nat) (l : List String) :
    ∀ q ∈ mkQuestionsFrom i l,
      q.answer = none ∧ q.feedback = none ∧ q.audioDuration = none := by
  induction l generalizing i with
  | nil => intro q hq; cases hq
  | cons t rest ih =>
      intro q hq
      rcases List.mem_cons.mp hq with hq | hq
      · subst hq; exact ⟨rfl, rfl, rfl⟩
      · exact ih (i + 1) q hq

theorem setAnswerAt_length (qs : List Question) (i : Nat) (a : String) (d : ℚ) :
    (setAnswerAt qs i a d).length = qs.length := by
  induction qs generalizing i with
  | nil => rfl
  | cons q rest ih =>
      cases i with
      | zero => rfl
      | succ j => simp [setAnswerAt, ih]

theorem setAnswerAt_map_id (qs : List Question) (i : Nat) (a : String) (d : ℚ) :
    (setAnswerAt qs i a d).map Question.id = qs.map Question.id := by
  induction qs generalizing i with
  | nil => rfl
  | cons q rest ih =>
      cases i with
      | zero => rfl
      | succ j => simp [setAnswerAt, ih]

theorem setAnswerAt_get (qs : List Question) (i : Nat) (a : String) (d : ℚ) :
    (setAnswerAt qs i a d).get? i =
      (qs.get? i).map
        (fun q => { q with answer := some a, audioDuration := some d }) := by
  induction qs generalizing i with
  | nil => cases i <;> rfl
  | cons q rest ih =>
      cases i with
      | zero => rfl
      | succ j => simpa [setAnswerAt] using ih j

theorem setAnswerAt_pres (P : Question → Prop) (qs : List Question) (i : Nat)
    (a : String) (d : ℚ) (h : ∀ q ∈ qs, P q)
    (hmod : ∀ q, P q → P { q with answer := some a, audioDuration := some d }) :
    ∀ q ∈ setAnswerAt qs i a d, P q := by
  induction qs generalizing i with
  | nil => intro q hq; cases hq
  | cons q rest ih =>
      cases i with
      | zero =>
          intro p hp
          rcases List.mem_cons.mp hp with hp | hp
          · subst hp; exact hmod q (h q (by simp))
          · exact h p (by simp [hp])
      | succ j =>
          intro p hp
          rcases List.mem_cons.mp hp with hp | hp
          · subst hp; exact h p (by simp)
          · exact ih j (fun r hr => h r (by simp [hr])) p hp

theorem updateOne_id (analyze : Question → Option Feedback) (q : Question) :
    (updateOne analyze q).id = q.id := by
  cases hq : answerTruthy q <;> cases h : analyze q <;> simp [updateOne, hq, h]

theorem updateOne_answer (analyze : Question → Option Feedback) (q : Question) :
    (updateOne analyze q).answer = q.answer := by
  cases hq : answerTruthy q <;> cases h : analyze q <;> simp [updateOne, hq, h]

theorem updateOne_audioDuration (analyze : Question → Option Feedback)
    (q : Question) : (updateOne analyze q).audioDuration = q.audioDuration := by
  cases hq : answerTruthy q <;> cases h : analyze q <;> simp [updateOne, hq, h]

theorem updateOne_fail (analyze : Question → Option Feedback) (q : Question)
    (h : analyze q = none) : updateOne analyze q = q := by
  cases hq : answerTruthy q <;> simp [updateOne, hq, h]

theorem updateOne_skip (analyze : Question → Option Feedback) (q : Question)
    (h : answerTruthy q = false) : updateOne analyze q = q := by
  simp [updateOne, h]

theorem updateOne_success (analyze : Question → Option Feedback) (q : Question)
    (f : Feedback) (hq : answerTruthy q = true) (h : analyze q = some f) :
    updateOne analyze q = { q with feedback := some f } := by
  simp [updateOne, hq, h]

theorem pipelineCalls_eq_filter (qs : List Question) :
    pipelineCalls qs = qs.filter answerTruthy := by
  induction qs with
  | nil => rfl
  | cons q rest ih =>
      cases hq : answerTruthy q <;>
        simp [pipelineCalls, List.filter_cons, hq, ih]

theorem pipeWrites_run (analyze : Question → Option Feedback) :
    ∀ (pending done : List Question) (s : Session),
      s.questions = done ++ pending →
      (pipeWrites analyze done pending).foldl applyWrite s =
        { s with questions := done ++ pending.map (updateOne analyze),
                 phase := .REVIEWING } := by
  intro pending
  induction pending with
  | nil =>
      intro done s h
      simp only [pipeWrites, List.foldl_cons, List.foldl_nil, applyWrite,
        List.map_nil]
      rw [List.append_nil] at h
      rw [List.append_nil, ← h]
  | cons q rest ih =>
      intro done s h
      by_cases hq : answerTruthy q = true
      · cases ha : analyze q with
        | none =>
            simp only [pipeWrites, hq, if_true, ha]
            rw [ih (done ++ [q]) s (by simpa using h)]
            simp [updateOne_fail analyze q ha]
        | some f =>
            simp only [pipeWrites, hq, if_true, ha, List.foldl_cons]
            have hih := ih (done ++ [{ q with feedback := some f }])
              (applyWrite s
                (.setQs (done ++ ({ q with feedback := some f } :: rest))))
              (by simp [applyWrite])
            rw [hih]
            simp [applyWrite, updateOne_success analyze q f hq ha]
      · rw [Bool.not_eq_true] at hq
        simp only [pipeWrites, hq, Bool.false_eq_true, if_false]
        rw [ih (done ++ [q]) s (by simpa using h)]
        simp [updateOne_skip analyze q hq]

theorem fetchFeedbackRun_eq (analyze : Question → Option Feedback) (s : Session) :
    fetchFeedbackRun analyze s =
      { s with questions := s.questions.map (updateOne analyze),
               phase := .REVIEWING } := by
  simpa using pipeWrites_run analyze s.questions [] s (by simp)

theorem recog_foldl (batches : List (List (Bool × String))) :
    ∀ s : Session, s.isListening = true →
      (batches.map Event.recog).foldl step s =
        { s with interimTranscript := lastInterim s.interimTranscript batches,
                 finalTranscript := accumFinalFrom s.finalTranscript batches } := by
  induction batches with
  | nil => intro s _; rfl
  | cons rs rest ih =>
      intro s h
      have hstep : step s (.recog rs) = onResult rs s := by simp [step, h]
      have hl : (onResult rs s).isListening = true := h
      simp only [List.map_cons, List.foldl_cons, hstep, ih (onResult rs s) hl]
      rfl

theorem inv_init : Inv init := by
  refine ⟨fun _ => ⟨rfl, rfl⟩, by simp [init, Inv], by simp [init], ?_, ?_⟩ <;>
    simp [init]

theorem inv_mkQs (s : Session) (l : List String) :
    Inv { s with questions := mkQuestions l, currentIndex := 0,
                 phase := .INTERVIEWING } := by
  refine ⟨by simp, ?_, ?_, ?_, ?_⟩
  · intro _
    by_cases hl : (mkQuestions l).length = 0
    · exact Or.inr ⟨List.length_eq_zero.mp hl, rfl⟩
    · exact Or.inl (Nat.pos_of_ne_zero hl)
  · simpa [mkQuestions_length] using mkQuestions_map_id l
  · intro q hq
    obtain ⟨ha, -, hd⟩ := mkQuestionsFrom_mem 0 l q hq
    simp [ha, hd]
  · intro _ q hq
    exact (mkQuestionsFrom_mem 0 l q hq).2.1

theorem inv_stopListening (now : ℚ) (s : Session) (h : Inv s)
    (hp : s.phase = .INTERVIEWING) : Inv (stopListening now s) := by
  obtain ⟨h1, h2, h3, h4, h5⟩ := h
  have hatomic : ∀ (d : ℚ),
      ∀ q ∈ setAnswerAt s.questions s.currentIndex s.finalTranscript d,
      q.answer.isSome ↔ q.audioDuration.isSome := by
    intro d
    refine setAnswerAt_pres _ _ _ _ _ h4 ?_
    intro q _
    simp
  have hfb : ∀ (d : ℚ),
      ∀ q ∈ setAnswerAt s.questions s.currentIndex s.finalTranscript d,
      q.feedback = none := by
    intro d
    refine setAnswerAt_pres _ _ _ _ _ (h5 (by simp [hp])) ?_
    intro q hq
    exact hq
  have hids : ∀ (d : ℚ),
      (setAnswerAt s.questions s.currentIndex s.finalTranscript d).map Question.id
        = List.range
            (setAnswerAt s.questions s.currentIndex s.finalTranscript d).length := by
    intro d
    rw [setAnswerAt_map_id, setAnswerAt_length]
    exact h3
  unfold stopListening
  by_cases hlt : s.currentIndex + 1 < s.questions.length
  · rw [if_pos hlt]
    refine ⟨by simp [hp], ?_, hids _, hatomic _, fun _ => hfb _⟩
    intro _
    left
    rw [setAnswerAt_length]
    exact hlt
  · rw [if_neg hlt]
    exact ⟨by simp, by simp, hids _, hatomic _, fun _ => hfb _⟩

theorem inv_fetchRun (analyze : Question → Option Feedback) (s : Session)
    (h : Inv s) : Inv (fetchFeedbackRun analyze s) := by
  obtain ⟨h1, h2, h3, h4, h5⟩ := h
  rw [fetchFeedbackRun_eq]
  refine ⟨by simp, by simp, ?_, ?_, fun hne => absurd rfl hne⟩
  · simpa [List.map_map, Function.comp_def, updateOne_id] using h3
  · intro q hq
    simp only [List.mem_map] at hq
    obtain ⟨p, hp, rfl⟩ := hq
    simpa [updateOne_answer, updateOne_audioDuration] using h4 p hp

theorem inv_step (s : Session) (e : Event) (h : Inv s) : Inv (step s e) := by
  obtain ⟨h1, h2, h3, h4, h5⟩ := h
  cases e with
  | beginWithJD =>
      by_cases hp : s.phase = .NOT_STARTED
      · obtain ⟨hi, hqs⟩ := h1 (Or.inl hp)
        simp only [step]
        rw [if_pos hp]
        exact ⟨fun _ => ⟨hi, hqs⟩, by simp, h3, h4, fun _ => h5 (by simp [hp])⟩
      · simp only [step]
        rw [if_neg hp]
        exact ⟨h1, h2, h3, h4, h5⟩
  | setJD t =>
      by_cases hp : s.phase = .GETTING_JOB_DESC
      · obtain ⟨hi, hqs⟩ := h1 (Or.inr hp)
        simp only [step]
        rw [if_pos hp]
        exact ⟨fun _ => ⟨hi, hqs⟩, by simp [hp], h3, h4, fun _ => h5 (by simp [hp])⟩
      · simp only [step]
        rw [if_neg hp]
        exact ⟨h1, h2, h3, h4, h5⟩
  | startInterviewEv gen =>
      by_cases hg : s.phase = .NOT_STARTED ∨
          (s.phase = .GETTING_JOB_DESC ∧ s.jobDescription ≠ "")
      · simp only [step]
        rw [if_pos hg]
        exact inv_mkQs s _
      · simp only [step]
        rw [if_neg hg]
        exact ⟨h1, h2, h3, h4, h5⟩
  | startListen now =>
      by_cases hg : s.phase = .INTERVIEWING ∧ s.isListening = false
      · simp only [step]
        rw [if_pos hg]
        exact ⟨h1, h2, h3, h4, h5⟩
      · simp only [step]
        rw [if_neg hg]
        exact ⟨h1, h2, h3, h4, h5⟩
  | stopListen now =>
      by_cases hg : s.phase = .INTERVIEWING ∧ s.isListening = true
      · simp only [step]
        rw [if_pos hg]
        exact inv_stopListening now s ⟨h1, h2, h3, h4, h5⟩ hg.1
      · simp only [step]
        rw [if_neg hg]
        exact ⟨h1, h2, h3, h4, h5⟩
  | recog rs =>
      by_cases hl : s.isListening = true
      · simp only [step]
        rw [if_pos hl]
        exact ⟨h1, h2, h3, h4, h5⟩
      · simp only [step]
        rw [if_neg hl]
        exact ⟨h1, h2, h3, h4, h5⟩
  | finishFeedback analyze =>
      by_cases hp : s.phase = .AWAITING_FEEDBACK
      · simp only [step]
        rw [if_pos hp]
        exact inv_fetchRun analyze s ⟨h1, h2, h3, h4, h5⟩
      · simp only [step]
        rw [if_neg hp]
        exact ⟨h1, h2, h3, h4, h5⟩
  | reset =>
      exact ⟨fun _ => ⟨rfl, rfl⟩, by simp [step, resetInterview],
             by simp [step, resetInterview], by simp [step, resetInterview],
             by simp [step, resetInterview]⟩

theorem inv_foldl (es : List Event) : ∀ s : Session, Inv s → Inv (es.foldl step s) := by
  induction es with
  | nil => intro s h; exact h
  | cons e rest ih => intro s h; exact ih (step s e) (inv_step s e h)

theorem reachable_inv (s : Session) (h : Reachable s) : Inv s := by
  obtain ⟨es, rfl⟩ := h
  exact inv_foldl es init inv_init

theorem step_index_mono (s : Session) (h : Inv s) (e : Event)
    (he : e ≠ Event.reset) : s.currentIndex ≤ (step s e).currentIndex := by
  obtain ⟨h1, -, -, -, -⟩ := h
  cases e with
  | reset => exact absurd rfl he
  | beginWithJD =>
      by_cases hp : s.phase = .NOT_STARTED
      · simp [step, if_pos hp]
      · simp [step, if_neg hp]
  | setJD t =>
      by_cases hp : s.phase = .GETTING_JOB_DESC
      · simp [step, if_pos hp]
      · simp [step, if_neg hp]
  | startInterviewEv gen =>
      by_cases hg : s.phase = .NOT_STARTED ∨
          (s.phase = .GETTING_JOB_DESC ∧ s.jobDescription ≠ "")
      · have hi : s.currentIndex = 0 := by
          rcases hg with hg | hg
          · exact (h1 (Or.inl hg)).1
          · exact (h1 (Or.inr hg.1)).1
        simp [step, if_pos hg, startInterviewResult, hi]
      · simp [step, if_neg hg]
  | startListen now =>
      by_cases hg : s.phase = .INTERVIEWING ∧ s.isListening = false
      · simp [step, if_pos hg, startListening]
      · simp [step, if_neg hg]
  | stopListen now =>
      by_cases hg : s.phase = .INTERVIEWING ∧ s.isListening = true
      · simp only [step, if_pos hg]
        unfold stopListening
        by_cases hlt : s.currentIndex + 1 < s.questions.length
        · simp only [if_pos hlt]
          exact Nat.le_succ _
        · simp [if_neg hlt]
      · simp [step, if_neg hg]
  | recog rs =>
      by_cases hl : s.isListening = true
      · simp [step, if_pos hl, onResult]
      · simp [step, if_neg hl]
  | finishFeedback analyze =>
      by_cases hp : s.phase = .AWAITING_FEEDBACK
      · simp [step, if_pos hp, fetchFeedbackRun_eq]
      · simp [step, if_neg hp]

theorem answerTruthy_false_iff (q : Question) :
    answerTruthy q = false ↔ (q.answer = none ∨ q.answer = some "") := by
  cases hq : q.answer with
  | none => simp [answerTruthy, hq]
  | some a => simp [answerTruthy, hq]

theorem stopListening_questions (now : ℚ) (s : Session) :
    (stopListening now s).questions =
      setAnswerAt s.questions s.currentIndex s.finalTranscript
        (match s.recordingStartTime with
         | some t0 => if t0 ≠ 0 then (now - t0) / 1000 else 0
         | none => 0) := by
  unfold stopListening
  by_cases hlt : s.currentIndex + 1 < s.questions.length
  · rw [if_pos hlt]
  · rw [if_neg hlt]

theorem finalsOf_filter_aux (rs : List (Bool × String)) :
    ∀ acc : String,
      (rs.filter fun r => r.1).foldl (fun a r => if r.1 then a ++ r.2 else a) acc
        = rs.foldl (fun a r => if r.1 then a ++ r.2 else a) acc := by
  induction rs with
  | nil => intro acc; rfl
  | cons r rest ih =>
      intro acc
      by_cases hr : r.1 = true
      · simp only [List.filter_cons, hr, if_true, List.foldl_cons, ih]
      · simp only [List.filter_cons, hr, if_false, Bool.false_eq_true,
          List.foldl_cons, ih]

theorem finalsOf_filter (rs : List (Bool × String)) :
    finalsOf (rs.filter fun r => r.1) = finalsOf rs :=
  finalsOf_filter_aux rs ""

theorem accumFinalFrom_filter (batches : List (List (Bool × String))) :
    ∀ acc : String,
      accumFinalFrom acc (batches.map fun rs => rs.filter fun r => r.1)
        = accumFinalFrom acc batches := by
  induction batches with
  | nil => intro acc; rfl
  | cons rs rest ih =>
      intro acc
      simp only [List.map_cons, accumFinalFrom, finalsOf_filter]
      exact ih _

/-- C1 (counterexample): a Question whose `answer` is present but empty does
not get the default pace of 150 — `getAnswerFeedback` rejects it with
"Answer is missing" before the words-per-minute value is ever computed, so
no value at all is passed to the analysis call. -/
theorem wpm_empty_answer_cex :
    getAnswerFeedbackWpm
        { id := 0, text := "t", answer := some "", audioDuration := some 2 }
      = Except.error "Answer is missing" ∧
    getAnswerFeedbackWpm
        { id := 0, text := "t", answer := some "", audioDuration := some 2 }
      ≠ Except.ok 150 :=
  ⟨rfl, fun h => Except.noConfusion h⟩

/-- C1 (amended): for every Question with a present, non-empty answer the
words-per-minute value passed to the analysis call equals the specified
`round(wordCount(answer) / (audioDuration / 60))`, with the neutral default
150 substituted exactly when `audioDuration` is zero or absent, and no
division by zero occurs; a Question whose answer is absent or empty is
instead rejected with "Answer is missing" before any pace is computed. -/
theorem wpm_matches_spec (q : Question) :
    (∀ a, q.answer = some a → a ≠ "" →
      getAnswerFeedbackWpm q = Except.ok (specWpm a q.audioDuration)) ∧
    ((q.answer = none ∨ q.answer = some "") →
      getAnswerFeedbackWpm q = Except.error "Answer is missing") := by
  constructor
  · intro a ha hne
    have ht : answerTruthy q = true := by simp [answerTruthy, ha, hne]
    simp only [getAnswerFeedbackWpm, ht, if_true]
    congr 1
    cases hd : q.audioDuration with
    | none => simp [wordsPerMinute, durationTruthy, hd, specWpm, hne]
    | some d =>
        by_cases hz : d = 0
        · simp [wordsPerMinute, durationTruthy, hd, hz, specWpm, hne]
        · simp [wordsPerMinute, durationTruthy, hd, hz, specWpm, hne, ht, ha]
  · intro hcase
    have hf : answerTruthy q = false := (answerTruthy_false_iff q).mpr hcase
    simp [getAnswerFeedbackWpm, hf]

/-- Witness for C1: the spec example — answer "a b c d" recorded over 2
seconds is passed a pace of round(4 / (2/60)) = 120. -/
theorem wpm_matches_spec_witness :
    getAnswerFeedbackWpm
        { id := 0, text := "t", answer := some "a b c d", audioDuration := some 2 }
      = Except.ok 120 := by
  have h := (wpm_matches_spec
      { id := 0, text := "t", answer := some "a b c d",
        audioDuration := some 2 }).1 "a b c d" rfl (by decide)
  have hw : wordCount "a b c d" = 4 := by decide
  have h2 : specWpm "a b c d" (some 2) = 120 := by
    rw [specWpm, if_neg (by push_neg; exact ⟨by decide, by simp, by simp⟩)]
    norm_num [hw, jsRound]
  rw [h, h2]

/-- C10: `getAnswerFeedback` fails with "Answer is missing" exactly when the
Question's answer is absent or empty; the pipeline only ever calls it on
questions with a truthy answer, so that failure branch is unreachable from
the pipeline, and a question with an absent or empty answer passes through
the pipeline completely unchanged (in particular it never receives
feedback). -/
theorem missing_answer_guard (q : Question)
    (analyze : Question → Option Feedback) (qs : List Question) :
    (getAnswerFeedbackWpm q = Except.error "Answer is missing" ↔
      (q.answer = none ∨ q.answer = some "")) ∧
    (∀ p ∈ pipelineCalls qs,
      getAnswerFeedbackWpm p ≠ Except.error "Answer is missing") ∧
    ((q.answer = none ∨ q.answer = some "") → updateOne analyze q = q) ∧
    (∀ s : Session, (fetchFeedbackRun analyze s).questions
      = s.questions.map (updateOne analyze)) := by
  refine ⟨?_, ?_, ?_, ?_⟩
  · constructor
    · intro h
      rw [← answerTruthy_false_iff]
      cases hb : answerTruthy q
      · rfl
      · simp [getAnswerFeedbackWpm, hb] at h
    · intro h
      have hf : answerTruthy q = false := (answerTruthy_false_iff q).mpr h
      simp [getAnswerFeedbackWpm, hf]
  · intro p hp
    rw [pipelineCalls_eq_filter] at hp
    have ht : answerTruthy p = true := List.of_mem_filter hp
    simp [getAnswerFeedbackWpm, ht]
  · intro h
    exact updateOne_skip analyze q ((answerTruthy_false_iff q).mpr h)
  · intro s
    rw [fetchFeedbackRun_eq]

/-- Witness for C10: a question captured with no final fragments (empty
answer) is left untouched by a pipeline step whose analysis call would
succeed. -/
theorem missing_answer_guard_witness :
    updateOne (fun _ => some fb0) { id := 0, text := "t", answer := some "" }
      = { id := 0, text := "t", answer := some "" } :=
  (missing_answer_guard { id := 0, text := "t", answer := some "" }
    (fun _ => some fb0) []).2.2.1 (Or.inr rfl)

/-- C2: the feedback pipeline, run from any reachable `AWAITING_FEEDBACK`
state, invokes the analysis call exactly on the questions with a truthy
answer, in list order — which by the id invariant is strictly ascending id
order; per item a failed call leaves that question's feedback absent while a
successful call attaches it; and the phase becomes `REVIEWING`
unconditionally, so even a batch in which every call failed terminates in
`REVIEWING`. -/
theorem feedback_pipeline_spec (s : Session)
    (analyze : Question → Option Feedback) (hreach : Reachable s)
    (hph : s.phase = .AWAITING_FEEDBACK) :
    (step s (.finishFeedback analyze)).phase = .REVIEWING ∧
    (step s (.finishFeedback analyze)).questions
      = s.questions.map (updateOne analyze) ∧
    pipelineCalls s.questions = s.questions.filter answerTruthy ∧
    ((pipelineCalls s.questions).map Question.id).Pairwise (· < ·) ∧
    (∀ q ∈ s.questions, analyze q = none →
      (updateOne analyze q).feedback = none) ∧
    (∀ q ∈ s.questions, ∀ f, answerTruthy q = true → analyze q = some f →
      (updateOne analyze q).feedback = some f) := by
  obtain ⟨h1, h2, h3, h4, h5⟩ := reachable_inv s hreach
  have hstep : step s (.finishFeedback analyze) = fetchFeedbackRun analyze s := by
    simp only [step]
    rw [if_pos hph]
  refine ⟨?_, ?_, pipelineCalls_eq_filter _, ?_, ?_, ?_⟩
  · rw [hstep, fetchFeedbackRun_eq]
  · rw [hstep, fetchFeedbackRun_eq]
  · have hpair : (s.questions.map Question.id).Pairwise (· < ·) := by
      rw [h3]
      exact List.pairwise_lt_range _
    have hq : s.questions.Pairwise (fun a b => a.id < b.id) :=
      List.pairwise_map.mp hpair
    rw [pipelineCalls_eq_filter]
    exact List.pairwise_map.mpr (hq.sublist (List.filter_sublist _))
  · intro q hq hfail
    rw [updateOne_fail analyze q hfail]
    exact h5 (by simp [hph]) q hq
  · intro q hq f ht hsucc
    rw [updateOne_success analyze q f ht hsucc]

/-- Witness for C2: a fully failing batch run from a concrete awaiting
session still reaches `REVIEWING`. -/
theorem feedback_pipeline_spec_witness :
    (step wAwait (.finishFeedback fun _ => none)).phase = .REVIEWING :=
  (feedback_pipeline_spec wAwait (fun _ => none) ⟨wTrace, rfl⟩ rfl).1

/-- C3 (counterexample): when the generation call succeeds but returns three
strings, `startInterview` produces three Questions, not five, while still
reaching `INTERVIEWING`. -/
theorem startInterview_count_cex :
    badGenState.phase = .INTERVIEWING ∧
    badGenState.questions.length = 3 ∧ badGenState.questions.length ≠ 5 :=
  ⟨rfl, rfl, by decide⟩

/-- C3 (amended): `startInterview` always produces ordered Question records
with sequential ids starting at 0 and reaches `INTERVIEWING` with
`currentIndex = 0`; the list is exactly the five preset questions whenever
the job description is empty or the generation call fails, and is one record
per generated string when the call succeeds. -/
theorem startInterview_spec (s : Session) (gen : Except Unit (List String))
    (hg : s.phase = .NOT_STARTED ∨
      (s.phase = .GETTING_JOB_DESC ∧ s.jobDescription ≠ "")) :
    (step s (.startInterviewEv gen)).phase = .INTERVIEWING ∧
    (step s (.startInterviewEv gen)).currentIndex = 0 ∧
    (step s (.startInterviewEv gen)).questions.map Question.id
      = List.range (step s (.startInterviewEv gen)).questions.length ∧
    ((s.jobDescription = "" ∨ gen = .error ()) →
      (step s (.startInterviewEv gen)).questions = mkQuestions PRESET_QUESTIONS) ∧
    (mkQuestions PRESET_QUESTIONS).length = 5 ∧
    (∀ l, s.jobDescription ≠ "" → gen = .ok l →
      (step s (.startInterviewEv gen)).questions = mkQuestions l) := by
  have hstep : step s (.startInterviewEv gen) = startInterviewResult gen s := by
    simp only [step]
    rw [if_pos hg]
  rw [hstep]
  refine ⟨rfl, rfl, ?_, ?_, rfl, ?_⟩
  · simp only [startInterviewResult]
    rw [mkQuestions_map_id, mkQuestions_length]
  · intro h
    rcases h with h | h
    · simp [startInterviewResult, h]
    · by_cases hjd : s.jobDescription = ""
      · simp [startInterviewResult, hjd]
      · simp [startInterviewResult, hjd, h]
  · intro l hjd hok
    simp [startInterviewResult, hjd, hok]

/-- Witness for C3: with a failing generation call from the initial state,
the five preset questions are used and the phase reaches `INTERVIEWING`. -/
theorem startInterview_spec_witness :
    (step init (.startInterviewEv (.error ()))).questions
        = mkQuestions PRESET_QUESTIONS ∧
    (step init (.startInterviewEv (.error ()))).phase = .INTERVIEWING := by
  have h := startInterview_spec init (.error ()) (Or.inl rfl)
  exact ⟨h.2.2.2.1 (Or.inl rfl), h.1⟩

/-- C5 (counterexample): a reachable `INTERVIEWING` state in which
`currentIndex < questions.length` fails — the generation call returned an
empty list, so the session enters `INTERVIEWING` with no questions and
`currentIndex = 0`. -/
theorem index_bound_cex :
    emptyGenState.phase = .INTERVIEWING ∧
    ¬ emptyGenState.currentIndex < emptyGenState.questions.length :=
  ⟨rfl, by decide⟩

/-- C5 (amended): in every reachable `INTERVIEWING` state the index is
strictly below the question count whenever the question list is non-empty
(an empty generated list yields the degenerate `INTERVIEWING` state with no
questions and index 0); within a session the index never decreases, entering
`INTERVIEWING` resets it to 0, and answering a non-last question increments
it by exactly one. -/
theorem currentIndex_spec (s : Session) (hreach : Reachable s) :
    (s.phase = .INTERVIEWING →
      (s.questions ≠ [] → s.currentIndex < s.questions.length) ∧
      (s.questions = [] → s.currentIndex = 0)) ∧
    (∀ e, e ≠ Event.reset → s.currentIndex ≤ (step s e).currentIndex) ∧
    (∀ gen, s.phase = .NOT_STARTED ∨
        (s.phase = .GETTING_JOB_DESC ∧ s.jobDescription ≠ "") →
      (step s (.startInterviewEv gen)).currentIndex = 0 ∧
      (step s (.startInterviewEv gen)).phase = .INTERVIEWING) ∧
    (∀ now, s.phase = .INTERVIEWING → s.isListening = true →
      s.currentIndex + 1 < s.questions.length →
      (step s (.stopListen now)).currentIndex = s.currentIndex + 1) := by
  have hInv := reachable_inv s hreach
  obtain ⟨h1, h2, h3, h4, h5⟩ := hInv
  refine ⟨?_, ?_, ?_, ?_⟩
  · intro hph
    rcases h2 hph with hlt | ⟨hnil, hz⟩
    · refine ⟨fun _ => hlt, fun hq => ?_⟩
      rw [hq] at hlt
      exact absurd hlt (by simp)
    · exact ⟨fun hne => absurd hnil hne, fun _ => hz⟩
  · intro e he
    exact step_index_mono s ⟨h1, h2, h3, h4, h5⟩ e he
  · intro gen hg
    constructor
    · simp only [step]
      rw [if_pos hg]
      rfl
    · simp only [step]
      rw [if_pos hg]
      rfl
  · intro now hph hl hlt
    simp only [step]
    rw [if_pos (show s.phase = .INTERVIEWING ∧ s.isListening = true from ⟨hph, hl⟩)]
    unfold stopListening
    rw [if_pos hlt]

/-- Witness for C5: in a freshly started preset interview the index bound
holds. -/
theorem currentIndex_spec_witness :
    wInterviewing.currentIndex < wInterviewing.questions.length :=
  ((currentIndex_spec wInterviewing
      ⟨[Event.startInterviewEv (.error ())], rfl⟩).1 rfl).1 (by decide)

/-- C6: resetting from any state yields `NOT_STARTED` with empty questions,
index 0, empty job description and both transcript buffers cleared, and the
reset is idempotent. -/
theorem resetInterview_spec (s : Session) :
    (resetInterview s).phase = .NOT_STARTED ∧
    (resetInterview s).questions = [] ∧
    (resetInterview s).currentIndex = 0 ∧
    (resetInterview s).jobDescription = "" ∧
    (resetInterview s).finalTranscript = "" ∧
    (resetInterview s).interimTranscript = "" ∧
    resetInterview (resetInterview s) = resetInterview s :=
  ⟨rfl, rfl, rfl, rfl, rfl, rfl, rfl⟩

/-- C7: in every reachable state, every question has `answer` and
`audioDuration` either both absent or both present. -/
theorem answer_duration_atomic (s : Session) (hreach : Reachable s) :
    ∀ q ∈ s.questions, q.answer.isSome ↔ q.audioDuration.isSome := by
  obtain ⟨-, -, -, h4, -⟩ := reachable_inv s hreach
  exact h4

/-- Witness for C7: the answered question of a concrete run has both fields
present. -/
theorem answer_duration_atomic_witness :
    ((wAwait.questions.get ⟨0, by decide⟩).answer.isSome ↔
      (wAwait.questions.get ⟨0, by decide⟩).audioDuration.isSome) :=
  answer_duration_atomic wAwait ⟨wTrace, rfl⟩ _ (List.get_mem _ _ _)

/-- C4 (code defect): the `fetchFeedback` continuation performs no
reset check between its awaited steps — run after a reset, its remaining
writes still land: starting from the reset state (`NOT_STARTED`, no
questions), replaying the pipeline writes for the captured question list
writes a feedback-carrying question list back and moves the phase to
`REVIEWING`. -/
theorem pipeline_ignores_reset :
    (resetInterview wAwait).phase = .NOT_STARTED ∧
    (resetInterview wAwait).questions = [] ∧
    pipelineAfterReset.phase = .REVIEWING ∧
    pipelineAfterReset.questions.map Question.feedback = [some fb0] :=
  ⟨rfl, rfl, rfl, rfl⟩

/-- C8: the answer stored by stopping capture is exactly the accumulated
final-fragment buffer of the recognition events since capture started —
a function of the final fragments only, so interim text never contributes;
the elapsed capture time is attached alongside it per the source's
truthiness check (a zero start timestamp is falsy and stores duration 0). -/
theorem capture_final_only (s : Session) (hph : s.phase = .INTERVIEWING)
    (hl : s.isListening = false) (hidx : s.currentIndex < s.questions.length)
    (t0 t1 : ℚ) (batches : List (List (Bool × String))) :
    (step ((batches.map Event.recog).foldl step (step s (.startListen t0)))
        (.stopListen t1)).questions.get? s.currentIndex =
      some { s.questions.get ⟨s.currentIndex, hidx⟩ with
             answer := some (accumFinal batches),
             audioDuration :=
               some (if t0 ≠ 0 then (t1 - t0) / 1000 else 0) } ∧
    accumFinal batches
      = accumFinal (batches.map fun rs => rs.filter fun r => r.1) := by
  constructor
  · have hs1 : step s (.startListen t0) = startListening t0 s := by
      simp only [step]
      rw [if_pos (show s.phase = .INTERVIEWING ∧ s.isListening = false from
        ⟨hph, hl⟩)]
    have hs2 := recog_foldl batches (startListening t0 s) rfl
    rw [hs1, hs2]
    have hguard :
        ({ startListening t0 s with
            interimTranscript :=
              lastInterim (startListening t0 s).interimTranscript batches,
            finalTranscript :=
              accumFinalFrom (startListening t0 s).finalTranscript batches } :
          Session).phase = .INTERVIEWING ∧
        ({ startListening t0 s with
            interimTranscript :=
              lastInterim (startListening t0 s).interimTranscript batches,
            finalTranscript :=
              accumFinalFrom (startListening t0 s).finalTranscript batches } :
          Session).isListening = true := ⟨hph, rfl⟩
    simp only [step]
    rw [if_pos hguard]
    rw [stopListening_questions]
    show (setAnswerAt s.questions s.currentIndex (accumFinalFrom "" batches)
        (if t0 ≠ 0 then (t1 - t0) / 1000 else 0)).get? s.currentIndex = _
    rw [setAnswerAt_get, List.get?_eq_get hidx]
    rfl
  · exact (accumFinalFrom_filter batches "").symm

/-- Witness for C8: an interim fragment followed by stopping capture with no
final fragment stores the empty answer (capture ran from timestamp 1000 to
3000, so the stored duration is the non-falsy branch's 2 seconds). -/
theorem capture_final_only_witness :
    (step (([[((false : Bool), "hello")]].map Event.recog).foldl step
        (step wInterviewing (.startListen 1000))) (.stopListen 3000)).questions.get?
        0 =
      some { id := 0, text := "Tell me about yourself.", answer := some "",
             feedback := none,
             audioDuration :=
               some (if (1000 : ℚ) ≠ 0 then ((3000 : ℚ) - 1000) / 1000 else 0) } :=
  (capture_final_only wInterviewing rfl rfl (by decide) 1000 3000
    [[((false : Bool), "hello")]]).1

/-- C9 (counterexample): one recognition event delivering the two final
fragments "a" and "b" appends "ab. " — a single delimiter for the whole
event — not the per-fragment "a. b. " the claim describes. -/
theorem delimiter_per_event_cex :
    (step wListening (.recog [(true, "a"), (true, "b")])).finalTranscript
        = "ab. " ∧
    (step wListening (.recog [(true, "a"), (true, "b")])).finalTranscript
        ≠ "a. b. " :=
  ⟨by decide, by decide⟩

/-- C9 (amended): per recognition event, the concatenation of the event's
final fragments is appended to the final buffer terminated by one single
delimiter (none when the event carried no final text), and the interim
scratch buffer is replaced by the event's interim text rather than appended
to. -/
theorem onresult_spec (s : Session) (hl : s.isListening = true)
    (rs : List (Bool × String)) :
    (step s (.recog rs)).interimTranscript = interimOf rs ∧
    (step s (.recog rs)).finalTranscript =
      s.finalTranscript ++
        (if finalsOf rs = "" then "" else finalsOf rs ++ ". ") := by
  have hstep : step s (.recog rs) = onResult rs s := by
    simp only [step]
    rw [if_pos hl]
  rw [hstep]
  refine ⟨rfl, ?_⟩
  by_cases hf : finalsOf rs = ""
  · simp [onResult, hf]
  · simp [onResult, hf, String.append_assoc]

/-- Witness for C9: a two-final-fragment event from a live capture replaces
the scratch buffer with the (empty) interim text. -/
theorem onresult_spec_witness :
    (step wListening (.recog [(true, "a"), (true, "b")])).interimTranscript
      = interimOf [(true, "a"), (true, "b")] :=
  (onresult_spec wListening rfl [(true, "a"), (true, "b")]).1

end Coach
